import Mathlib

/-!
Verification of the clustering reverse proxy's routing and cache-coalescing
core against its specification.

Go strings are modelled as lists of characters (`Str`), byte slices as lists
of naturals below 256, machine `uint32` arithmetic as naturals reduced
modulo `2 ^ 32`, and the 64-bit Go `int` as `Int` (with the explicit
truncating conversion `goUint32OfInt` where the source converts).  A Go
run-time panic (integer division by zero) is modelled as `Option.none`.
-/

set_option maxRecDepth 4000

/-- A Go string, as its list of characters. -/
abbrev Str := List Char

/-- Convert a Lean string literal into the `Str` model. -/
def toStr (s : String) : Str := s.toList

/-- The whitespace predicate of Go `unicode.IsSpace`, used by
`strings.TrimSpace`: the full Unicode White_Space set — tab through
carriage return, space, NEL, NBSP, Ogham space mark (U+1680), the
U+2000-U+200A spaces, line and paragraph separators (U+2028, U+2029),
narrow no-break space (U+202F), medium mathematical space (U+205F) and
ideographic space (U+3000). -/
def goIsSpace (c : Char) : Bool :=
  let n := c.toNat
  n = 9 ∨ n = 10 ∨ n = 11 ∨ n = 12 ∨ n = 13 ∨ n = 32 ∨ n = 133 ∨ n = 160 ∨
  n = 5760 ∨ (8192 ≤ n ∧ n ≤ 8202) ∨ n = 8232 ∨ n = 8233 ∨ n = 8239 ∨
  n = 8287 ∨ n = 12288

/-- Go `strings.TrimSpace`: drop leading and trailing whitespace. -/
def trimSpace (s : Str) : Str :=
  ((s.dropWhile goIsSpace).reverse.dropWhile goIsSpace).reverse

/-- Function `isNumeric` from the member handler: non-empty and every character is a
decimal digit (`ch < '0' || ch > '9'` rejects). -/
def isNumeric (v : Str) : Bool :=
  if v = [] then false
  else v.all (fun ch => Char.ofNat 48 ≤ ch ∧ ch ≤ Char.ofNat 57)

/-- UTF-8 encoding of one character, as Go produces for `[]byte(string)`. -/
def utf8Encode (c : Char) : List Nat :=
  let n := c.toNat
  if n < 128 then [n]
  else if n < 2048 then [192 + n / 64, 128 + n % 64]
  else if n < 65536 then [224 + n / 4096, 128 + (n / 64) % 64, 128 + n % 64]
  else [240 + n / 262144, 128 + (n / 4096) % 64, 128 + (n / 64) % 64, 128 + n % 64]

/-- The bytes of a Go string (`[]byte(key)`): UTF-8 encoding of its characters. -/
def strBytes : Str → List Nat
  | [] => []
  | c :: cs => utf8Encode c ++ strBytes cs

/-- One step of the 32-bit FNV-1a digest from `hash/fnv`: XOR in the byte,
multiply by the FNV prime 16777619, truncate to 32 bits. -/
def fnv1aStep (h b : Nat) : Nat := ((h ^^^ b % 256) * 16777619) % 4294967296

/-- The 32-bit FNV-1a digest of a byte sequence (`fnv.New32a`; offset basis
2166136261). -/
def fnv1a (bytes : List Nat) : Nat := bytes.foldl fnv1aStep 2166136261

/-- Go conversion `uint32(n)` for a 64-bit `int` value: two's-complement
truncation to the low 32 bits. -/
def goUint32OfInt (n : Int) : Nat := (n % 4294967296).toNat

/-- Function `util.ConsistentIndex` from `internal/util/hash.go`:

```go
func ConsistentIndex(key string, buckets int) int {
    if buckets <= 0 { return 0 }
    h := fnv.New32a()
    h.Write([]byte(key))
    return int(h.Sum32() % uint32(buckets))
}
```

`none` models the Go run-time panic raised by `% uint32(buckets)` when the
truncated divisor is zero. -/
def ConsistentIndex (key : List Nat) (buckets : Int) : Option Int :=
  if buckets ≤ 0 then some 0
  else
    let m := goUint32OfInt buckets
    if m = 0 then none
    else some ((fnv1a key % m : Nat) : Int)

/-- Split a string on a separator character, as Go `strings.Split` (and the
`strings.Cut` loop inside `net/url.resolvePath`): always at least one piece. -/
def splitOnChar (c : Char) : Str → List Str
  | [] => [[]]
  | x :: xs =>
    if x = c then [] :: splitOnChar c xs
    else
      match splitOnChar c xs with
      | [] => [[x]]
      | y :: ys => (x :: y) :: ys

/-- Join pieces with a separator character, as Go `strings.Join`. -/
def joinChar (c : Char) : List Str → Str
  | [] => []
  | [s] => s
  | s :: rest => s ++ c :: joinChar c rest

/-- Index of the last occurrence of a character (`strings.LastIndex` /
`strings.LastIndexByte` for one-byte needles). -/
def lastIndexOfChar (c : Char) : Str → Option Nat
  | [] => none
  | x :: xs =>
    match lastIndexOfChar c xs with
    | some i => some (i + 1)
    | none => if x = c then some 0 else none

/-- One loop iteration of `net/url.resolvePath`: the state is the builder
`dst` (always beginning with a slash) and the `first` flag. -/
def resolveStep (st : Str × Bool) (elem : Str) : Str × Bool :=
  if elem = toStr "." then (st.1, false)
  else if elem = toStr ".." then
    match lastIndexOfChar (Char.ofNat 47) (st.1.drop 1) with
    | none => ([Char.ofNat 47], true)
    | some i => (Char.ofNat 47 :: (st.1.drop 1).take i, st.2)
  else
    ((if st.2 then st.1 else st.1 ++ [Char.ofNat 47]) ++ elem, false)

/-- The `full` computation at the top of `net/url.resolvePath`: an absolute
reference replaces the base, a relative one is joined after the base's last
slash, an empty one keeps the base. -/
def mergeRefPath (base ref : Str) : Str :=
  if ref = [] then base
  else if ref.headD (Char.ofNat 0) ≠ Char.ofNat 47 then
    (base.take (match lastIndexOfChar (Char.ofNat 47) base with
      | none => 0
      | some i => i + 1)) ++ ref
  else ref

/-- The dot-segment-removal loop of `net/url.resolvePath` applied to the
merged path, including the trailing-slash restoration for a final dot
segment and the duplicate-leading-slash trim. -/
def cleanPath (full : Str) : Str :=
  if full = [] then []
  else
    let elems := splitOnChar (Char.ofNat 47) full
    let dst := (elems.foldl resolveStep ([Char.ofNat 47], true)).1
    let lastE := elems.getLastD []
    let dst := if lastE = toStr "." ∨ lastE = toStr ".." then dst ++ [Char.ofNat 47] else dst
    match dst with
    | a :: b :: rest => if b = Char.ofNat 47 then b :: rest else a :: b :: rest
    | short => short

/-- Function `net/url.resolvePath(base, ref)`: merge the reference path with the base
path and remove dot segments, exactly as the Go standard library does. -/
def resolvePath (base ref : Str) : Str := cleanPath (mergeRefPath base ref)

/-- A parsed hierarchical URL (`net/url.URL` restricted to the fields the
member path uses: scheme, host, escaped path, raw query; no opaque part,
userinfo or fragment, which `ParseMemberTargets`-accepted `http(s)://` bases
and handler-built references never carry). -/
structure GoURL where
  scheme : Str
  host : Str
  path : Str
  rawQuery : Str
  deriving DecidableEq, Repr

/-- The call `base.ResolveReference(&url.URL\x7bPath: refPath, RawQuery: refRawQuery\x7d)`
from `net/url`, specialised to a reference carrying only a path and query:
the scheme and host come from the base, the path goes through
`resolvePath`, and the base query survives only when the reference has
neither path nor query. -/
def resolveReference (base : GoURL) (refPath refRawQuery : Str) : GoURL :=
  { scheme := base.scheme
    host := base.host
    path := resolvePath base.path refPath
    rawQuery := if refPath = [] ∧ refRawQuery = [] then base.rawQuery else refRawQuery }

instance {ε α : Type} [DecidableEq ε] [DecidableEq α] : DecidableEq (Except ε α) := fun a b =>
  match a, b with
  | Except.ok x, Except.ok y => decidable_of_iff (x = y) (by simp)
  | Except.error x, Except.error y => decidable_of_iff (x = y) (by simp)
  | Except.ok _, Except.error _ => isFalse (by simp)
  | Except.error _, Except.ok _ => isFalse (by simp)

/-- Errors surfaced by target selection in the member handler. -/
inductive GoErr
  | errBadPath
  | errNoUpstreamTarget
  deriving DecidableEq, Repr

/-- Type `upstream.MemberTarget` as the tagged union the handler switches on. -/
inductive MemberTarget
  | unknown
  | direct
  | static (base : GoURL)
  deriving DecidableEq, Repr

/-- The routing key built by `chooseTarget`: the path, plus `?` and the raw
query when the query is non-empty. -/
def routingKey (path rawQuery : Str) : Str :=
  path ++ (if rawQuery = [] then [] else Char.ofNat 63 :: rawQuery)

/-- Function `resolveRobloxTarget` from the member handler: the first path segment
becomes a subdomain of `roblox.com`; the rest (or `/`) is the new path. -/
def resolveRobloxTarget (path : Str) : Except GoErr (Str × Str) :=
  let segments := splitOnChar (Char.ofNat 47) path
  if segments.length < 2 ∨ segments.getD 1 [] = [] then Except.error GoErr.errBadPath
  else
    let domain := segments.getD 1 []
    let remaining := joinChar (Char.ofNat 47) (segments.drop 2)
    let remaining := if remaining = [] then [Char.ofNat 47] else Char.ofNat 47 :: remaining
    Except.ok (domain ++ toStr ".roblox.com", remaining)

/-- The `switch target.Kind` body of `chooseTarget`: resolve the chosen
member target into a concrete URL. -/
def applyChosen (t : MemberTarget) (path rawQuery : Str) : Except GoErr GoURL :=
  match t with
  | MemberTarget.direct =>
    match resolveRobloxTarget path with
    | Except.error e => Except.error e
    | Except.ok hr => Except.ok ⟨toStr "https", hr.1, hr.2, rawQuery⟩
  | MemberTarget.static base => Except.ok (resolveReference base path rawQuery)
  | MemberTarget.unknown => Except.error GoErr.errNoUpstreamTarget

/-- Function `chooseTarget` from the member handler: reject an empty target list,
hash the routing key with `ConsistentIndex`, index the target list, and
resolve the chosen target.  `none` models the panic `ConsistentIndex` can
raise. -/
def chooseTarget (targets : List MemberTarget) (path rawQuery : Str) :
    Option (Except GoErr GoURL) :=
  if targets.length = 0 then some (Except.error GoErr.errNoUpstreamTarget)
  else
    match ConsistentIndex (strBytes (routingKey path rawQuery)) ((targets.length : Nat) : Int) with
    | none => none
    | some idx => some (applyChosen (targets.getD idx.toNat MemberTarget.unknown) path rawQuery)

/-- An opaque cached payload: a byte slice. -/
abbrev Payload := List Nat

/-- Type `cache.Entry`: payload plus the time it was written.  Timestamps and
durations are modelled as integers (nanoseconds). -/
structure Entry where
  payload : Payload
  storedAt : Int
  deriving DecidableEq, Repr

/-- The three outcomes of `cache.Store.Get`: transport error, miss, or hit. -/
inductive GetResult
  | error
  | miss
  | hit (e : Entry)
  deriving DecidableEq, Repr

/-- Everything one call of `readThroughCache` does, beyond returning:
whether the fetch closure ran synchronously, which singleflight key the
synchronous fetch used, which singleflight key a launched background
refresh uses, and which payload (if any) was handed to `cache.Store.Set`
for this key. -/
structure Outcome where
  result : Except Unit Payload
  fetchInvoked : Bool
  sfKey : Option Str
  refreshKey : Option Str
  storeWrite : Option Payload
  deriving DecidableEq, Repr

/-- The `":refresh"` suffix `launchRefresh` appends to the cache key to give
background refreshes their own singleflight bucket. -/
def refreshSuffix : Str := toStr ":refresh"

/-- Function `readThroughCache` from the member handler, as a function of the store
lookup result and of the fetch closure's result:

* store error → propagate, nothing else happens;
* hit → return the stored payload; when `now - storedAt` exceeds
  `backgroundRefreshAfter`, launch a refresh deduplicated under
  `key ++ ":refresh"`;
* miss → run the fetch under singleflight key `key`; on success write the
  payload to the store (a failed write is logged and swallowed, so the
  write is recorded unconditionally here) and return it; on failure return
  the error and write nothing. -/
def readThroughCache (key : Str) (now backgroundRefreshAfter : Int)
    (getRes : GetResult) (fetchRes : Except Unit Payload) : Outcome :=
  match getRes with
  | GetResult.error =>
    { result := Except.error (), fetchInvoked := false, sfKey := none,
      refreshKey := none, storeWrite := none }
  | GetResult.hit e =>
    { result := Except.ok e.payload, fetchInvoked := false, sfKey := none,
      refreshKey :=
        if now - e.storedAt > backgroundRefreshAfter then some (key ++ refreshSuffix)
        else none,
      storeWrite := none }
  | GetResult.miss =>
    match fetchRes with
    | Except.error e =>
      { result := Except.error e, fetchInvoked := true, sfKey := some key,
        refreshKey := none, storeWrite := none }
    | Except.ok p =>
      { result := Except.ok p, fetchInvoked := true, sfKey := some key,
        refreshKey := none, storeWrite := some p }

/-- The cache store's contents, as an association list from keys to entries
(later writes shadow earlier ones). -/
abbrev CacheStore := List (Str × Entry)

/-- Look a key up in the store contents. -/
def storeLookup : CacheStore → Str → Option Entry
  | [], _ => none
  | (k, e) :: rest, key => if k = key then some e else storeLookup rest key

/-- The `Get` result an error-free store yields for a key. -/
def getResultOf (s : CacheStore) (key : Str) : GetResult :=
  match storeLookup s key with
  | some e => GetResult.hit e
  | none => GetResult.miss

/-- Apply a call's store write (`storeWithTTL`, which stamps `StoredAt`
with the write time) to the store contents. -/
def applyOutcome (s : CacheStore) (key : Str) (now : Int) (o : Outcome) : CacheStore :=
  match o.storeWrite with
  | none => s
  | some p => (key, ⟨p, now⟩) :: s

/-- One sequential call of `readThroughCache` against an error-free store:
returns the call's outcome and the store contents afterwards. -/
def runGet (s : CacheStore) (key : Str) (now backgroundRefreshAfter : Int)
    (fetchRes : Except Unit Payload) : Outcome × CacheStore :=
  let o := readThroughCache key now backgroundRefreshAfter (getResultOf s key) fetchRes
  (o, applyOutcome s key now o)

/-- Modelled from the spec: the state of the process-wide in-flight registry
(`golang.org/x/sync/singleflight.Group`, an external collaborator not under
`src/`) for one key — whether a call is executing, the callers merged into
it, how many times the work function has been invoked, and the results
delivered so far. -/
structure SFState where
  inFlight : Bool
  waiters : List Nat
  invocations : Nat
  delivered : List (Nat × Except Unit Payload)
  deriving DecidableEq, Repr

/-- Modelled from the spec: a caller arriving at `Group.Do` for the key.
The first arrival starts the single execution of the work function; later
arrivals while it is in flight merely join its wait group. -/
def sfArrive (s : SFState) (caller : Nat) : SFState :=
  if s.inFlight then { s with waiters := s.waiters ++ [caller] }
  else { inFlight := true, waiters := [caller], invocations := s.invocations + 1,
         delivered := s.delivered }

/-- Modelled from the spec: the in-flight execution completing with
`result`.  Every merged waiter receives that one result and the registry
entry is removed. -/
def sfComplete (s : SFState) (result : Except Unit Payload) : SFState :=
  { inFlight := false, waiters := [], invocations := s.invocations,
    delivered := s.delivered ++ s.waiters.map (fun c => (c, result)) }

/-- An event in a single-key singleflight history. -/
inductive SFEvent
  | arrive (caller : Nat)
  | complete
  deriving DecidableEq, Repr

/-- Run a history of arrivals and completions; the work function's eventual
result is `result`. -/
def sfRun (result : Except Unit Payload) : List SFEvent → SFState → SFState
  | [], s => s
  | SFEvent.arrive c :: es, s => sfRun result es (sfArrive s c)
  | SFEvent.complete :: es, s => sfRun result es (sfComplete s result)

/-- The registry state before any caller arrives. -/
def initSF : SFState :=
  { inFlight := false, waiters := [], invocations := 0, delivered := [] }

/-- Type `net/http.Header`: an association from canonical header names to value
lists (the model assumes canonical-cased keys, as Go's parser produces). -/
abbrev Header := List (Str × List Str)

/-- Method `Header.Del`: remove every entry for the key. -/
def headerDel : Header → Str → Header
  | [], _ => []
  | (k, vs) :: rest, key =>
    if k = key then headerDel rest key else (k, vs) :: headerDel rest key

/-- The value list stored for a key, if any. -/
def headerLookup : Header → Str → Option (List Str)
  | [], _ => none
  | (k, vs) :: rest, key => if k = key then some vs else headerLookup rest key

/-- Method `Header.Add`: append one value to the key's list. -/
def headerAdd : Header → Str → Str → Header
  | [], key, v => [(key, [v])]
  | (k, vs) :: rest, key, v =>
    if k = key then (k, vs ++ [v]) :: rest else (k, vs) :: headerAdd rest key v

/-- Method `Header.Set`: replace the key's values with a single value. -/
def headerSet : Header → Str → Str → Header
  | [], key, v => [(key, [v])]
  | (k, vs) :: rest, key, v =>
    if k = key then (k, [v]) :: rest else (k, vs) :: headerSet rest key v

/-- Method `Header.Get`: the first value for the key, or the empty string. -/
def headerGetFirst (h : Header) (key : Str) : Str :=
  match headerLookup h key with
  | some (v :: _) => v
  | _ => []

/-- Function `copyHeaders(dst, src)` from the forwarder: `Add` every value of every
source key onto the destination. -/
def copyHeaders (dst src : Header) : Header :=
  src.foldl (fun d kv => kv.2.foldl (fun d2 v => headerAdd d2 kv.1 v) d) dst

/-- The fixed hop-by-hop header set from `internal/transport/http_client.go`. -/
def hopHeaders : List Str :=
  [toStr "Connection", toStr "Proxy-Connection", toStr "Keep-Alive",
   toStr "Proxy-Authenticate", toStr "Proxy-Authorization", toStr "Te",
   toStr "Trailer", toStr "Transfer-Encoding", toStr "Upgrade"]

/-- The loop `for _, h := range hopHeaders` deleting each hop header. -/
def delHopHeaders (h : Header) : Header := hopHeaders.foldl headerDel h

/-- The `X-Forwarded-For` header name. -/
def xffKey : Str := toStr "X-Forwarded-For"

/-- The `X-Forwarded-Proto` header name. -/
def xfpKey : Str := toStr "X-Forwarded-Proto"

/-- The `X-Forwarded-Host` header name. -/
def xfhKey : Str := toStr "X-Forwarded-Host"

/-- Function `schemeFromRequest` from the forwarder: TLS presence, else the inbound
`X-Forwarded-Proto`, else the URL scheme, else `"http"`. -/
def schemeFromRequest (tls : Bool) (inbound : Header) (urlScheme : Str) : Str :=
  if tls then toStr "https"
  else if headerGetFirst inbound xfpKey ≠ [] then headerGetFirst inbound xfpKey
  else if urlScheme ≠ [] then urlScheme
  else toStr "http"

/-- Function `setForwardedHeaders` from the forwarder: append the client IP to
`X-Forwarded-For`, set `X-Forwarded-Proto` when the inbound request did not
carry one, and set `X-Forwarded-Host` to the inbound host.  `clientIP` is
the host part `net.SplitHostPort` extracts from the remote address. -/
def setForwardedHeaders (hdr : Header) (clientIP : Str) (inbound : Header)
    (tls : Bool) (urlScheme host : Str) : Header :=
  let h1 :=
    if clientIP = [] then hdr
    else if headerGetFirst hdr xffKey = [] then headerSet hdr xffKey clientIP
    else headerSet hdr xffKey (headerGetFirst hdr xffKey ++ toStr ", " ++ clientIP)
  let h2 :=
    if headerGetFirst inbound xfpKey = [] then
      headerSet h1 xfpKey (schemeFromRequest tls inbound urlScheme)
    else h1
  headerSet h2 xfhKey host

/-- The headers of the outbound request `cloneRequestWithURL` builds: copy
the inbound headers onto the fresh request's empty header map, delete the
hop-by-hop set, then set the `X-Forwarded-*` headers. -/
def outboundRequestHeaders (inbound : Header) (clientIP : Str) (tls : Bool)
    (urlScheme host : Str) : Header :=
  setForwardedHeaders (delHopHeaders (copyHeaders [] inbound)) clientIP inbound
    tls urlScheme host

/-- The headers `Forwarder.Do` relays to the client: copy the upstream
response headers onto the response writer's current headers, then delete
the hop-by-hop set. -/
def relayResponseHeaders (client upstreamResp : Header) : Header :=
  delHopHeaders (copyHeaders client upstreamResp)

/-- Where `ServeHTTP` sends an inbound request: an immediate JSON response
with a status code, the cached entity lookup, the cached search fetch, or
the raw passthrough. -/
inductive Dispatch
  | respond (status : Nat) (body : Str)
  | entityLookup (userId : Str)
  | searchFetch (needle : Str)
  | passthrough
  deriving DecidableEq, Repr

/-- The exact 400 body for a malformed `userId`. -/
def invalidUserIdBody : Str := toStr "\x7b\"error\":\"Invalid or missing userId\"\x7d"

/-- The `handleUserLookup` dispatch decision on the trimmed `userId`. -/
def handleUserLookupDispatch (userID : Str) : Dispatch :=
  if isNumeric userID then Dispatch.entityLookup userID
  else Dispatch.respond 400 invalidUserIdBody

/-- The `handleSearch` dispatch decision on the trimmed `search` value (the
handler trims it a second time before the length check). -/
def handleSearchDispatch (search : Str) : Dispatch :=
  let needle := trimSpace search
  if needle.length < 3 then Dispatch.respond 400 (toStr "[]")
  else Dispatch.searchFetch needle

/-- The `ServeHTTP` dispatch: a `userId` that trims non-empty wins, then a
`search` that trims non-empty, else raw passthrough.  The inputs are the
raw `q.Get` results (Go's `Get` returns the empty string for an absent
parameter, so an empty-valued parameter is indistinguishable from an
absent one). -/
def serveDispatch (userIdRaw searchRaw : Str) : Dispatch :=
  let userID := trimSpace userIdRaw
  if userID ≠ [] then handleUserLookupDispatch userID
  else
    let search := trimSpace searchRaw
    if search ≠ [] then handleSearchDispatch search
    else Dispatch.passthrough

/-- The double-quote character. -/
def quoteChar : Char := Char.ofNat 34

/-- The single-quote (apostrophe) character. -/
def apostropheChar : Char := Char.ofNat 39

/-- The backslash character. -/
def backslashChar : Char := Char.ofNat 92

/-- Function `sanitizeError` from the member handler:
`strings.ReplaceAll(err.Error(), "\"", "'")` — every double quote in the
error message becomes a single quote. -/
def sanitizeError (msg : Str) : Str :=
  msg.map (fun c => if c = quoteChar then apostropheChar else c)

/-- The body `respondError` writes: `{"error":"` ++ sanitized message ++ `"}`. -/
def respondErrorBody (msg : Str) : Str :=
  toStr "\x7b\"error\":\"" ++ sanitizeError msg ++ toStr "\"\x7d"

/-- C1: on a cache hit, `readThroughCache` returns the stored payload, never
runs the fetch closure synchronously and writes nothing; when the entry's
age exceeds `backgroundRefreshAfter` it launches a background refresh
deduplicated under `key ++ ":refresh"`, and when the age is at most
`backgroundRefreshAfter` it launches no background work. -/
theorem readThroughCache_hit (key : Str) (now staleAfter : Int) (e : Entry)
    (fetchRes : Except Unit Payload) :
    (readThroughCache key now staleAfter (GetResult.hit e) fetchRes).result =
      Except.ok e.payload ∧
    (readThroughCache key now staleAfter (GetResult.hit e) fetchRes).fetchInvoked = false ∧
    (readThroughCache key now staleAfter (GetResult.hit e) fetchRes).sfKey = none ∧
    (readThroughCache key now staleAfter (GetResult.hit e) fetchRes).storeWrite = none ∧
    (now - e.storedAt > staleAfter →
      (readThroughCache key now staleAfter (GetResult.hit e) fetchRes).refreshKey =
        some (key ++ refreshSuffix)) ∧
    (now - e.storedAt ≤ staleAfter →
      (readThroughCache key now staleAfter (GetResult.hit e) fetchRes).refreshKey = none) := by
  refine ⟨rfl, rfl, rfl, rfl, fun h => ?_, fun h => ?_⟩
  · simp only [readThroughCache]
    rw [if_pos h]
  · simp only [readThroughCache]
    rw [if_neg (not_lt.mpr h)]

/-- Witness for `readThroughCache_hit` at a concrete stale entry. -/
theorem readThroughCache_hit_witness :
    ((5 : Int) - 0 > 2) ∧
    (readThroughCache (toStr "k") 5 2 (GetResult.hit ⟨[1], 0⟩) (Except.ok [])).refreshKey =
      some (toStr "k" ++ refreshSuffix) :=
  ⟨by decide,
   (readThroughCache_hit (toStr "k") 5 2 ⟨[1], 0⟩ (Except.ok [])).2.2.2.2.1 (by decide)⟩

/-- C6: when the store `Get` fails, `readThroughCache` propagates the error
at once: the fetch closure is never consulted (the outcome does not depend
on its result), nothing is written, and no background work starts. -/
theorem readThroughCache_store_error (key : Str) (now staleAfter : Int)
    (f1 f2 : Except Unit Payload) :
    (readThroughCache key now staleAfter GetResult.error f1).result = Except.error () ∧
    (readThroughCache key now staleAfter GetResult.error f1).fetchInvoked = false ∧
    (readThroughCache key now staleAfter GetResult.error f1).storeWrite = none ∧
    (readThroughCache key now staleAfter GetResult.error f1).refreshKey = none ∧
    readThroughCache key now staleAfter GetResult.error f1 =
      readThroughCache key now staleAfter GetResult.error f2 :=
  ⟨rfl, rfl, rfl, rfl, rfl⟩

/-- C2: on the miss path a failed fetch returns its error and writes
nothing, so the key is still absent afterwards, and a subsequent call for
the same key fetches again from scratch; when that second fetch succeeds
its payload is returned and stored with the write time as `storedAt`. -/
theorem readThroughCache_no_negative_caching (s : CacheStore) (key : Str)
    (now1 now2 staleAfter : Int) (p : Payload)
    (habs : storeLookup s key = none) :
    (runGet s key now1 staleAfter (Except.error ())).1.result = Except.error () ∧
    (runGet s key now1 staleAfter (Except.error ())).1.fetchInvoked = true ∧
    (runGet s key now1 staleAfter (Except.error ())).1.storeWrite = none ∧
    storeLookup (runGet s key now1 staleAfter (Except.error ())).2 key = none ∧
    (runGet (runGet s key now1 staleAfter (Except.error ())).2 key now2 staleAfter
        (Except.ok p)).1.fetchInvoked = true ∧
    (runGet (runGet s key now1 staleAfter (Except.error ())).2 key now2 staleAfter
        (Except.ok p)).1.result = Except.ok p ∧
    storeLookup (runGet (runGet s key now1 staleAfter (Except.error ())).2 key now2 staleAfter
        (Except.ok p)).2 key = some ⟨p, now2⟩ := by
  have hmiss : getResultOf s key = GetResult.miss := by simp [getResultOf, habs]
  have hfirst : runGet s key now1 staleAfter (Except.error ()) =
      (readThroughCache key now1 staleAfter GetResult.miss (Except.error ()), s) := by
    simp [runGet, hmiss, readThroughCache, applyOutcome]
  refine ⟨by rw [hfirst]; rfl, by rw [hfirst]; rfl, by rw [hfirst]; rfl,
    by rw [hfirst]; exact habs, ?_, ?_, ?_⟩
  all_goals rw [hfirst]
  all_goals simp [runGet, hmiss, readThroughCache, applyOutcome, storeLookup]

/-- Witness for `readThroughCache_no_negative_caching`: an empty store, a
first failing call, then a successful one. -/
theorem readThroughCache_no_negative_caching_witness :
    storeLookup [] (toStr "roblox:user:1") = none ∧
    storeLookup (runGet (runGet [] (toStr "roblox:user:1") 0 5 (Except.error ())).2
        (toStr "roblox:user:1") 1 5 (Except.ok [7])).2 (toStr "roblox:user:1") =
      some ⟨[7], 1⟩ :=
  ⟨rfl, (readThroughCache_no_negative_caching [] (toStr "roblox:user:1") 0 1 5 [7]
    rfl).2.2.2.2.2.2⟩

/-- C9 counterexample: `sanitizeError` does not backslash-escape embedded
double quotes — it replaces each one with a single quote, so the sanitized
message differs from the escaped form. -/
theorem sanitizeError_counterexample :
    sanitizeError [Char.ofNat 97, quoteChar, Char.ofNat 98] =
      [Char.ofNat 97, apostropheChar, Char.ofNat 98] ∧
    sanitizeError [Char.ofNat 97, quoteChar, Char.ofNat 98] ≠
      [Char.ofNat 97, backslashChar, quoteChar, Char.ofNat 98] := by decide

/-- C9 amended: the error body is `{"error":"` ++ sanitized message ++ `"}`
where every embedded double quote has been replaced by a single quote, so
the message part contains no double-quote character (and keeps the
message's length). -/
theorem sanitizeError_replaces_quotes (msg : Str) :
    respondErrorBody msg = toStr "\x7b\"error\":\"" ++ sanitizeError msg ++ toStr "\"\x7d" ∧
    quoteChar ∉ sanitizeError msg ∧
    (sanitizeError msg).length = msg.length := by
  refine ⟨rfl, ?_, by simp [sanitizeError]⟩
  intro hmem
  simp only [sanitizeError, List.mem_map] at hmem
  obtain ⟨c, -, hc⟩ := hmem
  by_cases h : c = quoteChar
  · rw [if_pos h] at hc
    exact absurd hc (by decide)
  · rw [if_neg h] at hc
    exact h hc

/-- C7 counterexample: a `userId` present as whitespace only falls through
to passthrough instead of yielding 400, and a `userId` with surrounding
whitespace around digits is trimmed and looked up instead of yielding
400 — both inputs are present and are not non-empty all-digit strings. -/
theorem userId_dispatch_counterexample :
    serveDispatch (toStr " ") [] = Dispatch.passthrough ∧
    Dispatch.passthrough ≠ Dispatch.respond 400 invalidUserIdBody ∧
    serveDispatch (toStr " 123 ") [] = Dispatch.entityLookup (toStr "123") ∧
    Dispatch.entityLookup (toStr "123") ≠ Dispatch.respond 400 invalidUserIdBody := by
  decide

/-- C7 amended: when the whitespace-trimmed `userId` is non-empty, a
non-all-digits value yields status 400 with the exact error body and an
all-digits value proceeds to the entity lookup on the trimmed value (a
`userId` that trims to empty is treated as absent and falls through). -/
theorem userId_dispatch (userIdRaw searchRaw : Str)
    (h : trimSpace userIdRaw ≠ []) :
    (isNumeric (trimSpace userIdRaw) = false →
      serveDispatch userIdRaw searchRaw = Dispatch.respond 400 invalidUserIdBody) ∧
    (isNumeric (trimSpace userIdRaw) = true →
      serveDispatch userIdRaw searchRaw = Dispatch.entityLookup (trimSpace userIdRaw)) := by
  constructor <;> intro hn <;>
    simp [serveDispatch, h, handleUserLookupDispatch, hn]

/-- Witness for `userId_dispatch` at the spec's own example `userId=abc`. -/
theorem userId_dispatch_witness :
    trimSpace (toStr "abc") ≠ [] ∧
    serveDispatch (toStr "abc") [] = Dispatch.respond 400 invalidUserIdBody :=
  ⟨by decide, (userId_dispatch (toStr "abc") [] (by decide)).1 (by decide)⟩

/-- The Go `uint32` truncation of a natural bucket count. -/
theorem goUint32OfInt_ofNat (n : Nat) : goUint32OfInt ((n : Nat) : Int) = n % 4294967296 := by
  unfold goUint32OfInt
  omega

/-- C10 counterexample: at bucket count `2 ^ 32` the divisor `uint32(buckets)`
truncates to zero and the modulo panics (`none`), so `ConsistentIndex` is
not total over every positive bucket count. -/
theorem ConsistentIndex_counterexample :
    (0 : Int) < 4294967296 ∧ ConsistentIndex [] 4294967296 = none := by decide

/-- C10 amended: `ConsistentIndex` returns 0 for every non-positive bucket
count, and for every positive bucket count whose low 32 bits are non-zero
(in particular every `0 < N < 2 ^ 32`) it returns an index `i` with
`0 ≤ i < N`; only a positive count that is a multiple of `2 ^ 32` panics. -/
theorem ConsistentIndex_total_in_range (key : List Nat) (buckets : Int) :
    (buckets ≤ 0 → ConsistentIndex key buckets = some 0) ∧
    (0 < buckets → goUint32OfInt buckets ≠ 0 →
      ∃ i : Int, ConsistentIndex key buckets = some i ∧ 0 ≤ i ∧ i < buckets) := by
  constructor
  · intro h
    simp [ConsistentIndex, h]
  · intro hpos hm
    have hb0 : ¬ buckets ≤ 0 := not_le.mpr hpos
    refine ⟨((fnv1a key % goUint32OfInt buckets : Nat) : Int), ?_, Int.natCast_nonneg _, ?_⟩
    · simp only [ConsistentIndex, if_neg hb0]
      rw [if_neg hm]
    · have h1 : fnv1a key % goUint32OfInt buckets < goUint32OfInt buckets :=
        Nat.mod_lt _ (Nat.pos_of_ne_zero hm)
      have h2 : (goUint32OfInt buckets : Int) ≤ buckets := by
        unfold goUint32OfInt
        omega
      calc ((fnv1a key % goUint32OfInt buckets : Nat) : Int)
          < (goUint32OfInt buckets : Int) := by exact_mod_cast h1
        _ ≤ buckets := h2

/-- Witness for `ConsistentIndex_total_in_range` at seven buckets. -/
theorem ConsistentIndex_total_in_range_witness :
    (0 : Int) < 7 ∧ goUint32OfInt 7 ≠ 0 ∧
    ∃ i : Int, ConsistentIndex [] 7 = some i ∧ 0 ≤ i ∧ i < 7 :=
  ⟨by decide, by decide,
   (ConsistentIndex_total_in_range [] 7).2 (by decide) (by decide)⟩

/-- C4 counterexample: for a target list of size `2 ^ 32 + 1` the selected
index is computed modulo the truncated 32-bit count (here 1), not modulo
the list size, so it differs from the FNV-1a hash reduced modulo `N`. -/
theorem chooseTarget_index_counterexample :
    ConsistentIndex (strBytes (routingKey [] [])) 4294967297 = some 0 ∧
    ((fnv1a (strBytes (routingKey [] [])) % 4294967297 : Nat) : Int) = 2166136261 ∧
    (some (0 : Int) : Option Int) ≠ some 2166136261 := by decide

/-- C4 amended: for every routing key and every non-empty target list of
size `N < 2 ^ 32`, the selected index is the 32-bit FNV-1a hash of the key
(path, plus `?` and the query when non-empty) reduced modulo `N`, and
`chooseTarget` deterministically resolves the target at that index. -/
theorem chooseTarget_index_spec (targets : List MemberTarget) (path rawQuery : Str)
    (hne : targets ≠ []) (hlt : targets.length < 4294967296) :
    ConsistentIndex (strBytes (routingKey path rawQuery)) ((targets.length : Nat) : Int) =
      some ((fnv1a (strBytes (routingKey path rawQuery)) % targets.length : Nat) : Int) ∧
    chooseTarget targets path rawQuery =
      some (applyChosen
        (targets.getD (fnv1a (strBytes (routingKey path rawQuery)) % targets.length)
          MemberTarget.unknown) path rawQuery) := by
  have hlen : targets.length ≠ 0 := by simpa using hne
  have hm : goUint32OfInt ((targets.length : Nat) : Int) = targets.length := by
    rw [goUint32OfInt_ofNat, Nat.mod_eq_of_lt hlt]
  have hb0 : ¬ (((targets.length : Nat) : Int) ≤ 0) := by
    exact_mod_cast not_le.mpr (Nat.pos_of_ne_zero hlen)
  have hci : ConsistentIndex (strBytes (routingKey path rawQuery)) ((targets.length : Nat) : Int) =
      some ((fnv1a (strBytes (routingKey path rawQuery)) % targets.length : Nat) : Int) := by
    simp only [ConsistentIndex, if_neg hb0, hm]
    rw [if_neg hlen]
  refine ⟨hci, ?_⟩
  simp only [chooseTarget, if_neg hlen, hci]
  rw [Int.toNat_natCast]

/-- Witness for `chooseTarget_index_spec` with one direct target. -/
theorem chooseTarget_index_spec_witness :
    ([MemberTarget.direct] ≠ ([] : List MemberTarget)) ∧
    ([MemberTarget.direct] : List MemberTarget).length < 4294967296 ∧
    (ConsistentIndex (strBytes (routingKey (toStr "/users/v1/users/5") []))
        ((([MemberTarget.direct] : List MemberTarget).length : Nat) : Int) =
      some ((fnv1a (strBytes (routingKey (toStr "/users/v1/users/5") [])) %
        ([MemberTarget.direct] : List MemberTarget).length : Nat) : Int) ∧
    chooseTarget [MemberTarget.direct] (toStr "/users/v1/users/5") [] =
      some (applyChosen
        (([MemberTarget.direct] : List MemberTarget).getD
          (fnv1a (strBytes (routingKey (toStr "/users/v1/users/5") [])) %
            ([MemberTarget.direct] : List MemberTarget).length)
          MemberTarget.unknown) (toStr "/users/v1/users/5") [])) :=
  ⟨by decide, by decide,
   chooseTarget_index_spec [MemberTarget.direct] (toStr "/users/v1/users/5") []
     (by decide) (by decide)⟩

/-- Running a singleflight history splits over concatenation. -/
theorem sfRun_append (result : Except Unit Payload) (l1 l2 : List SFEvent) (s : SFState) :
    sfRun result (l1 ++ l2) s = sfRun result l2 (sfRun result l1 s) := by
  induction l1 generalizing s with
  | nil => rfl
  | cons e es ih => cases e <;> simp [sfRun, ih]

/-- Arrivals while a call is in flight only join its wait group: the work
function is not invoked again and nothing is delivered yet. -/
theorem sfRun_arrives (result : Except Unit Payload) (cs : List Nat) (s : SFState)
    (hin : s.inFlight = true) :
    sfRun result (cs.map SFEvent.arrive) s =
      { inFlight := true, waiters := s.waiters ++ cs, invocations := s.invocations,
        delivered := s.delivered } := by
  induction cs generalizing s with
  | nil =>
    cases s
    simp_all [sfRun]
  | cons c cs ih =>
    simp only [List.map_cons, sfRun, sfArrive, hin, if_true]
    rw [ih _ rfl]
    simp

/-- C3: when `K ≥ 2` callers arrive for the same uncached key while none of
their fetches has completed, the work function is invoked exactly once and
every caller receives that one result (the identical payload, or the same
error); and every miss-path caller enters singleflight under the cache key
itself, so they all share one bucket. -/
theorem singleflight_coalesces (callers : List Nat) (result : Except Unit Payload)
    (hK : 2 ≤ callers.length) :
    (sfRun result (callers.map SFEvent.arrive ++ [SFEvent.complete]) initSF).invocations = 1 ∧
    (sfRun result (callers.map SFEvent.arrive ++ [SFEvent.complete]) initSF).delivered =
      callers.map (fun c => (c, result)) ∧
    (∀ key now staleAfter fetchRes,
      (readThroughCache key now staleAfter GetResult.miss fetchRes).sfKey = some key) := by
  obtain ⟨c, cs, rfl⟩ : ∃ c cs, callers = c :: cs := by
    cases callers with
    | nil => simp at hK
    | cons c cs => exact ⟨c, cs, rfl⟩
  have hstate : sfRun result ((c :: cs).map SFEvent.arrive) initSF =
      { inFlight := true, waiters := c :: cs, invocations := 1, delivered := [] } := by
    simp only [List.map_cons, sfRun, sfArrive, initSF]
    rw [sfRun_arrives _ _ _ rfl]
    simp
  rw [sfRun_append, hstate]
  refine ⟨rfl, by simp [sfRun, sfComplete], fun key now staleAfter fetchRes => ?_⟩
  cases fetchRes <;> rfl

/-- Witness for `singleflight_coalesces` with two callers. -/
theorem singleflight_coalesces_witness :
    2 ≤ ([0, 1] : List Nat).length ∧
    (sfRun (Except.ok [7]) (([0, 1] : List Nat).map SFEvent.arrive ++ [SFEvent.complete])
      initSF).invocations = 1 ∧
    (sfRun (Except.ok [7]) (([0, 1] : List Nat).map SFEvent.arrive ++ [SFEvent.complete])
      initSF).delivered = ([0, 1] : List Nat).map (fun c => (c, Except.ok [7])) :=
  ⟨by decide, (singleflight_coalesces [0, 1] (Except.ok [7]) (by decide)).1,
   (singleflight_coalesces [0, 1] (Except.ok [7]) (by decide)).2.1⟩

/-- Deleting a key leaves no entry for that key. -/
theorem headerLookup_del_self (h : Header) (k : Str) :
    headerLookup (headerDel h k) k = none := by
  induction h with
  | nil => rfl
  | cons kv rest ih =>
    obtain ⟨k1, vs⟩ := kv
    by_cases hk : k1 = k
    · simpa [headerDel, hk] using ih
    · simp [headerDel, headerLookup, hk, ih]

/-- Deleting any key preserves the absence of another. -/
theorem headerLookup_del_none (h : Header) (k k2 : Str)
    (hn : headerLookup h k = none) : headerLookup (headerDel h k2) k = none := by
  induction h with
  | nil => rfl
  | cons kv rest ih =>
    obtain ⟨k1, vs⟩ := kv
    by_cases h1 : k1 = k
    · simp [headerLookup, h1] at hn
    · by_cases h2 : k1 = k2 <;>
        simp_all [headerDel, headerLookup, h1, h2]

/-- A fold of deletions preserves the absence of a key. -/
theorem headerLookup_foldl_del_none (l : List Str) (h : Header) (k : Str)
    (hn : headerLookup h k = none) :
    headerLookup (l.foldl headerDel h) k = none := by
  induction l generalizing h with
  | nil => exact hn
  | cons x xs ih => exact ih _ (headerLookup_del_none _ _ _ hn)

/-- After folding deletions over a list containing a key, that key is gone. -/
theorem headerLookup_foldl_del (l : List Str) (h : Header) (k : Str) (hk : k ∈ l) :
    headerLookup (l.foldl headerDel h) k = none := by
  induction l generalizing h with
  | nil => cases hk
  | cons x xs ih =>
    rcases List.mem_cons.mp hk with rfl | hmem
    · exact headerLookup_foldl_del_none xs _ _ (headerLookup_del_self h k)
    · exact ih _ hmem

/-- Setting a different key preserves the absence of a key. -/
theorem headerLookup_set_none (h : Header) (k k2 v : Str) (hne : k2 ≠ k)
    (hn : headerLookup h k = none) : headerLookup (headerSet h k2 v) k = none := by
  induction h with
  | nil => simp [headerSet, headerLookup, hne]
  | cons kv rest ih =>
    obtain ⟨k1, vs⟩ := kv
    by_cases h1 : k1 = k
    · simp [headerLookup, h1] at hn
    · by_cases h2 : k1 = k2 <;>
        simp_all [headerSet, headerLookup, h1, h2, hne]

/-- None of the `X-Forwarded-*` names the forwarder sets is a hop-by-hop
header. -/
theorem xkeys_not_hop : ∀ k ∈ hopHeaders, xffKey ≠ k ∧ xfpKey ≠ k ∧ xfhKey ≠ k := by
  decide

/-- Function `setForwardedHeaders` only touches `X-Forwarded-*` names, so a missing
hop-by-hop header stays missing. -/
theorem setForwarded_preserves_none (hdr : Header) (clientIP : Str) (inbound : Header)
    (tls : Bool) (urlScheme host k : Str)
    (h1 : xffKey ≠ k) (h2 : xfpKey ≠ k) (h3 : xfhKey ≠ k)
    (hn : headerLookup hdr k = none) :
    headerLookup (setForwardedHeaders hdr clientIP inbound tls urlScheme host) k = none := by
  unfold setForwardedHeaders
  dsimp only
  apply headerLookup_set_none _ _ _ _ h3
  have hinner : headerLookup
      (if clientIP = [] then hdr
       else if headerGetFirst hdr xffKey = [] then headerSet hdr xffKey clientIP
       else headerSet hdr xffKey (headerGetFirst hdr xffKey ++ toStr ", " ++ clientIP)) k =
      none := by
    split
    · exact hn
    · split
      · exact headerLookup_set_none _ _ _ _ h1 hn
      · exact headerLookup_set_none _ _ _ _ h1 hn
  split
  · exact headerLookup_set_none _ _ _ _ h2 hinner
  · exact hinner

/-- C8: for every header in the fixed hop-by-hop set, the outbound request
the forwarder constructs carries no entry for it, and the headers relayed
from the upstream response to the client carry no entry for it. -/
theorem hop_header_hygiene (inbound : Header) (clientIP : Str) (tls : Bool)
    (urlScheme host : Str) (client upstreamResp : Header) (k : Str)
    (hk : k ∈ hopHeaders) :
    headerLookup (outboundRequestHeaders inbound clientIP tls urlScheme host) k = none ∧
    headerLookup (relayResponseHeaders client upstreamResp) k = none := by
  obtain ⟨h1, h2, h3⟩ := xkeys_not_hop k hk
  constructor
  · unfold outboundRequestHeaders
    exact setForwarded_preserves_none _ _ _ _ _ _ _ h1 h2 h3
      (headerLookup_foldl_del _ _ _ hk)
  · exact headerLookup_foldl_del _ _ _ hk

/-- Witness for `hop_header_hygiene` on a request and response that both
carry `Connection` headers. -/
theorem hop_header_hygiene_witness :
    toStr "Connection" ∈ hopHeaders ∧
    (headerLookup (outboundRequestHeaders
        [(toStr "Connection", [toStr "close"]), (toStr "Host", [toStr "a"])]
        (toStr "1.2.3.4") false (toStr "http") (toStr "example.com"))
        (toStr "Connection") = none ∧
      headerLookup (relayResponseHeaders []
        [(toStr "Connection", [toStr "keep-alive"]), (toStr "Upgrade", [toStr "h2c"])])
        (toStr "Connection") = none) :=
  ⟨by decide,
   hop_header_hygiene [(toStr "Connection", [toStr "close"]), (toStr "Host", [toStr "a"])]
     (toStr "1.2.3.4") false (toStr "http") (toStr "example.com") []
     [(toStr "Connection", [toStr "keep-alive"]), (toStr "Upgrade", [toStr "h2c"])]
     (toStr "Connection") (by decide)⟩

/-- Function `splitOnChar` always yields at least one piece. -/
theorem splitOnChar_ne_nil (c : Char) (s : Str) : splitOnChar c s ≠ [] := by
  induction s with
  | nil => simp [splitOnChar]
  | cons x xs ih =>
    simp only [splitOnChar]
    split
    · simp
    · split <;> simp

/-- Function `joinChar` over a cons with a non-empty tail inserts one separator. -/
theorem joinChar_cons (c : Char) (s : Str) (r : List Str) (h : r ≠ []) :
    joinChar c (s :: r) = s ++ c :: joinChar c r := by
  cases r with
  | nil => exact absurd rfl h
  | cons y ys => rfl

/-- Joining the pieces of a split recovers the original string. -/
theorem joinChar_splitOnChar (c : Char) (s : Str) :
    joinChar c (splitOnChar c s) = s := by
  induction s with
  | nil => rfl
  | cons x xs ih =>
    simp only [splitOnChar]
    by_cases hx : x = c
    · subst hx
      rw [if_pos rfl, joinChar_cons _ _ _ (splitOnChar_ne_nil x xs), ih]
      rfl
    · rw [if_neg hx]
      rcases hsp : splitOnChar c xs with _ | ⟨y, ys⟩
      · exact absurd hsp (splitOnChar_ne_nil c xs)
      · rw [hsp] at ih
        cases ys with
        | nil =>
          simp only [joinChar] at ih ⊢
          rw [ih]
        | cons z zs =>
          show (x :: y) ++ c :: joinChar c (z :: zs) = x :: xs
          rw [← ih]
          rfl

/-- Folding `resolveStep` from a non-`first` state over dot-free segments
appends each segment after a slash. -/
theorem foldl_resolveStep_plain (es : List Str) (d : Str)
    (hno : ∀ e ∈ es, e ≠ toStr "." ∧ e ≠ toStr "..") :
    es.foldl resolveStep (d, false) =
      (if es = [] then d else d ++ Char.ofNat 47 :: joinChar (Char.ofNat 47) es, false) := by
  induction es generalizing d with
  | nil => simp
  | cons e rest ih =>
    have he := hno e (List.mem_cons_self _ _)
    have hstep : resolveStep (d, false) e = (d ++ Char.ofNat 47 :: e, false) := by
      simp only [resolveStep, if_neg he.1, if_neg he.2]
      simp
    simp only [List.foldl_cons, hstep]
    rw [ih _ (fun x hx => hno x (List.mem_cons_of_mem _ hx))]
    by_cases hr : rest = []
    · subst hr
      simp [joinChar]
    · rw [if_neg hr, if_neg (by simp : ¬(e :: rest = []))]
      rw [joinChar_cons _ _ _ hr]
      simp

/-- The default-carrying last element of a non-empty list is a member. -/
theorem getLastD_mem (l : List Str) (h : l ≠ []) : ∀ d, l.getLastD d ∈ l := by
  induction l with
  | nil => exact absurd rfl h
  | cons x xs ih =>
    intro d
    cases xs with
    | nil => simp
    | cons y ys =>
      rw [List.getLastD_cons]
      exact List.mem_cons_of_mem _ (ih (by simp) x)

/-- Dot-segment removal is the identity on an absolute path whose segments
contain no `.` or `..`. -/
theorem cleanPath_abs (t : Str)
    (hno : ∀ e ∈ splitOnChar (Char.ofNat 47) (Char.ofNat 47 :: t),
      e ≠ toStr "." ∧ e ≠ toStr "..") :
    cleanPath (Char.ofNat 47 :: t) = Char.ofNat 47 :: t := by
  have hsplit : splitOnChar (Char.ofNat 47) (Char.ofNat 47 :: t) =
      [] :: splitOnChar (Char.ofNat 47) t := by
    simp [splitOnChar]
  have hrest : splitOnChar (Char.ofNat 47) t ≠ [] := splitOnChar_ne_nil _ _
  rw [hsplit] at hno
  have hstep0 : resolveStep ([Char.ofNat 47], true) [] = ([Char.ofNat 47], false) := by
    decide
  have hfold : ([] :: splitOnChar (Char.ofNat 47) t).foldl resolveStep
      ([Char.ofNat 47], true) =
      (Char.ofNat 47 :: Char.ofNat 47 ::
        joinChar (Char.ofNat 47) (splitOnChar (Char.ofNat 47) t), false) := by
    rw [List.foldl_cons, hstep0]
    rw [foldl_resolveStep_plain _ _ (fun e he => hno e (List.mem_cons_of_mem _ he))]
    rw [if_neg hrest]
    rfl
  have hlast := hno (([] :: splitOnChar (Char.ofNat 47) t).getLastD [])
    (getLastD_mem _ (by simp) [])
  unfold cleanPath
  rw [if_neg (by simp : ¬(Char.ofNat 47 :: t = []))]
  simp only [hsplit, hfold]
  rw [if_neg (not_or.mpr ⟨hlast.1, hlast.2⟩)]
  simp only [if_true]
  rw [joinChar_splitOnChar]

/-- Function `resolvePath` is the identity on an absolute, dot-free reference path,
whatever the base path is: the base path is discarded, not prefixed. -/
theorem resolvePath_abs (base p : Str)
    (hp : p.headD (Char.ofNat 0) = Char.ofNat 47)
    (hno : ∀ e ∈ splitOnChar (Char.ofNat 47) p, e ≠ toStr "." ∧ e ≠ toStr "..") :
    resolvePath base p = p := by
  obtain ⟨t, rfl⟩ : ∃ t, p = Char.ofNat 47 :: t := by
    cases p with
    | nil => exact absurd hp (by decide)
    | cons c cs => exact ⟨cs, by rw [show c = Char.ofNat 47 from hp]⟩
  have hmerge : mergeRefPath base (Char.ofNat 47 :: t) = Char.ofNat 47 :: t := by
    simp [mergeRefPath]
  rw [resolvePath, hmerge]
  exact cleanPath_abs t hno

/-- C5 counterexample: a static target whose base URL has the non-empty
path `/prefix` resolves request path `/x` (query `q=1`) to path `/x`, not
to any slash-adjusted append of `/x` onto `/prefix` — the base path is
replaced, not appended. -/
theorem static_target_path_counterexample :
    chooseTarget
        [MemberTarget.static ⟨toStr "http", toStr "cluster-a", toStr "/prefix", []⟩]
        (toStr "/x") (toStr "q=1") =
      some (Except.ok ⟨toStr "http", toStr "cluster-a", toStr "/x", toStr "q=1"⟩) ∧
    toStr "/x" ≠ toStr "/prefix" ++ toStr "/x" ∧
    toStr "/x" ≠ toStr "/prefix" ++ toStr "x" ∧
    toStr "/x" ≠ toStr "/prefix/" ++ toStr "/x" := by decide

/-- C5 amended: for a static member target and an absolute, dot-free
request path, the resolved URL keeps the base's scheme and host, its path
is exactly the request path (the base URL's path is replaced — appending
coincides with this only when the base path is empty, as
`ParseMemberTargets` produces for host-only target URLs), and the original
raw query string is reattached unchanged. -/
theorem static_target_resolution (base : GoURL) (path rawQuery : Str)
    (hp : path.headD (Char.ofNat 0) = Char.ofNat 47)
    (hno : ∀ e ∈ splitOnChar (Char.ofNat 47) path, e ≠ toStr "." ∧ e ≠ toStr "..") :
    applyChosen (MemberTarget.static base) path rawQuery =
      Except.ok ⟨base.scheme, base.host, path, rawQuery⟩ := by
  have hne : path ≠ [] := by
    intro h
    rw [h] at hp
    exact absurd hp (by decide)
  simp only [applyChosen, resolveReference]
  rw [resolvePath_abs base.path path hp hno]
  simp [hne]

/-- Witness for `static_target_resolution` at the passthrough path from
the spec. -/
theorem static_target_resolution_witness :
    ((toStr "/users/v1/users/5").headD (Char.ofNat 0) = Char.ofNat 47) ∧
    (∀ e ∈ splitOnChar (Char.ofNat 47) (toStr "/users/v1/users/5"),
      e ≠ toStr "." ∧ e ≠ toStr "..") ∧
    applyChosen (MemberTarget.static ⟨toStr "http", toStr "cluster-a", [], []⟩)
        (toStr "/users/v1/users/5") (toStr "x=1") =
      Except.ok ⟨toStr "http", toStr "cluster-a", toStr "/users/v1/users/5", toStr "x=1"⟩ :=
  ⟨by decide, by decide,
   static_target_resolution ⟨toStr "http", toStr "cluster-a", [], []⟩
     (toStr "/users/v1/users/5") (toStr "x=1") (by decide) (by decide)⟩
